import Mathlib

/-!
# Verification of the role-acl grant-resolution engine

Shallow embedding of the repository's access-control core:

* `src/src/AccessControl.ts` — the `AccessControl` class (grant store wrapper,
  `setGrants`, `removeRoles`, `permission`, `filter`, `extendRole`);
* `src/unnamed/part_001` — `OrCondition.evaluate`.

The `CommonUtil` / `ArrayUtil` / `Permission` helpers the class delegates to
are repository code that is not part of the provided sources; every definition
standing in for one of them is marked `Modelled from the spec:` and follows the
specification's wording for that operation.

JavaScript dynamic values are embedded as the inductive `JsValue`; machine
behaviour such as truthiness and the runtime type tag is made explicit.
Fallible operations return `Except ACError`.
-/

/-- A JavaScript runtime value, as far as the access-control core inspects one:
`undefined`/`null`, booleans, numbers (modelled as `Int`; the core never does
fractional arithmetic on them), strings, arrays and plain objects (ordered
key/value lists, mirroring JS insertion-ordered object keys). -/
inductive JsValue where
  | undef : JsValue
  | null : JsValue
  | bool : Bool → JsValue
  | num : Int → JsValue
  | str : String → JsValue
  | arr : List JsValue → JsValue
  | obj : List (String × JsValue) → JsValue

/-- Modelled from the spec: `CommonUtil.type` (utils, not in src) classifies a
value by its runtime type tag, distinguishing in particular `object` from
`array` and from `null`/`undefined` (the spec's grant- and condition-ingestion
rules branch on exactly these tags). -/
def jsType : JsValue → String
  | .undef => "undefined"
  | .null => "null"
  | .bool _ => "boolean"
  | .num _ => "number"
  | .str _ => "string"
  | .arr _ => "array"
  | .obj _ => "object"

/-- JavaScript truthiness: `undefined`, `null`, `false`, `0` and `""` are
falsy; every other value (including empty arrays and empty objects) is truthy.
This is the semantics of the `if (!args)` / `if (!context)` guards in
`OrCondition.evaluate` (src/unnamed/part_001, lines 15-21). -/
def truthy : JsValue → Bool
  | .undef => false
  | .null => false
  | .bool b => b
  | .num n => n != 0
  | .str s => s != ""
  | .arr _ => true
  | .obj _ => true

/-- Modelled from the spec: `ArrayUtil.toArray` (utils, not in src). An array
is returned as-is; any other value is wrapped into a one-element list. -/
def toArray : JsValue → List JsValue
  | .arr xs => xs
  | v => [v]

/-- The error taxonomy of §7 of the specification. The repository raises a
single `AccessControlError` class (core, not in src) carrying a message; the
spec's taxonomy names the distinct validation failures, so the embedding keeps
them apart as constructors, each still carrying the message string. -/
inductive ACError where
  | invalidGrantsFormat : String → ACError
  | cycleError : String → ACError
  | invalidConditionArgs : String → ACError
  | unknownPredicate : String → ACError
  | missingRequiredField : String → ACError
deriving DecidableEq, Repr

/-- Embeds `OrCondition.evaluate` (src/unnamed/part_001, lines 14-34)
faithfully: falsy `args` returns `true`; otherwise a falsy `context` returns
`false`; otherwise a non-array, non-object `args` raises
`AccessControlError` (`InvalidConditionArgs` in the spec taxonomy); otherwise
the operands `toArray args` are folded with JavaScript's short-circuiting
`result = result || await evaluate(condition, context)`. `ConditionUtil.evaluate`
is repository code outside src, so it is a parameter `subEval`. -/
def orConditionEvaluate (subEval : JsValue → JsValue → Except ACError Bool)
    (args context : JsValue) : Except ACError Bool :=
  if !truthy args then
    .ok true
  else if !truthy context then
    .ok false
  else if jsType args != "array" && jsType args != "object" then
    .error (.invalidConditionArgs "OrCondition expects type of args to be array or object")
  else
    (toArray args).foldlM
      (fun result condition =>
        if result then pure true else subEval condition context)
      false

/-! ## The grant store -/

/-- One entry of a role's `$extend` map: the inherited role's name maps to an
optional gating condition (spec §3, §6: `$extend?: { [role]: score|{score,
condition} }`; the per-entry score duplicate is not read by any src operation,
which looks scores up in the global store, so it is not stored here). -/
structure ExtInfo where
  condition : Option JsValue := none

/-- A single access grant (spec §3): resource, action key (such as
`create:any`, bare `create`, or the wildcard), attribute glob patterns
(defaulting to `["*"]` at ingestion when omitted) and an optional condition
expression kept as the raw wire value. -/
structure Grant where
  resource : String
  action : String
  attributes : List String
  condition : Option JsValue := none

/-- A role record (spec §3): its grants, its `$extend` map and its
inheritance score. -/
structure RoleItem where
  grants : List Grant
  ext : List (String × ExtInfo)
  score : Int

/-- The grant store: an insertion-ordered mapping from role name to role
record, mirroring the JS object `this._grants` of `AccessControl`
(src/src/AccessControl.ts, line 71). -/
abbrev Grants := List (String × RoleItem)

/-- First-match lookup of a role record, the JS `this._grants[role]`. -/
def lookupRole (g : Grants) (r : String) : Option RoleItem :=
  (g.find? (fun p => p.1 == r)).map (·.2)

/-- JS property write `this._grants[role] = item`: replaces the first (in a
JS object: the only) entry with that key in place, or appends a new one (JS
objects keep insertion order). -/
def setRole : Grants → String → RoleItem → Grants
  | [], r, item => [(r, item)]
  | p :: ps, r, item =>
      if p.1 == r then (p.1, item) :: ps else p :: setRole ps r item

/-- First-match lookup in a JS-object field list. -/
def lookupField (fields : List (String × JsValue)) (k : String) : Option JsValue :=
  (fields.find? (fun p => p.1 == k)).map (·.2)

/-- Lookup of a field that must be a string to count as present. -/
def lookupStr (fields : List (String × JsValue)) (k : String) : Option String :=
  match lookupField fields k with
  | some (.str s) => some s
  | _ => none

/-- First-match lookup in a role's `$extend` map. -/
def lookupExt (ext : List (String × ExtInfo)) (r : String) : Option ExtInfo :=
  (ext.find? (fun p => p.1 == r)).map (·.2)

/-- Write into a role's `$extend` map, replacing or appending like a JS
property assignment. -/
def setExt : List (String × ExtInfo) → String → ExtInfo →
    List (String × ExtInfo)
  | [], r, info => [(r, info)]
  | p :: ps, r, info =>
      if p.1 == r then (p.1, info) :: ps else p :: setExt ps r info

/-! ## Grant ingestion (`setGrants`) -/

/-- Modelled from the spec: the attribute list of an ingested grant record
(spec §3: `attributes` defaults to `["*"]` when omitted). String entries of a
supplied array are kept; an absent or non-array value yields the default. -/
def parseAttributes (fields : List (String × JsValue)) : List String :=
  match lookupField fields "attributes" with
  | some (.arr xs) =>
      xs.filterMap (fun x => match x with | .str s => some s | _ => none)
  | _ => ["*"]

/-- Appends a grant to a role's record, creating the role (spec §3: roles are
created implicitly on first grant) when absent. A freshly created role starts
with an empty `$extend` map and score 1. -/
def addGrant (g : Grants) (role : String) (gr : Grant) : Grants :=
  match lookupRole g role with
  | some item => setRole g role { item with grants := item.grants ++ [gr] }
  | none => setRole g role { grants := [gr], ext := [], score := 1 }

/-- Modelled from the spec: `CommonUtil.commitToGrants` (utils, not in src)
ingests one flat-list grant record (spec §4.1, §6): the record must be an
object carrying `role`, `resource` and `action`; a record missing one of them
fails with `InvalidGrantsFormat`. Records with identical role/resource/action
accumulate. -/
def commitToGrants (g : Grants) (item : JsValue) : Except ACError Grants :=
  match item with
  | .obj fields =>
      match lookupStr fields "role", lookupStr fields "resource",
          lookupStr fields "action" with
      | some role, some res, some act =>
          .ok (addGrant g role
            { resource := res, action := act,
              attributes := parseAttributes fields,
              condition := lookupField fields "condition" })
      | _, _, _ => .error (.invalidGrantsFormat "Invalid grant item")
  | _ => .error (.invalidGrantsFormat "Invalid grant item")

/-- Modelled from the spec: parsing of one `$extend` wire entry
(spec §6: `score|{score, condition}`) into the stored extension info. -/
def parseExtEntry (v : JsValue) : ExtInfo :=
  match v with
  | .obj fields => { condition := lookupField fields "condition" }
  | _ => {}

/-- Modelled from the spec: one role's record in the object-shaped grant input
(spec §6: `{ grants: [{resource, action?, attributes?, condition?}],
$extend?: ... }`). Grant records missing `resource` or `action` fail with
`InvalidGrantsFormat` (spec §4.1); the stored score is taken from a numeric
`score` field when present, else 1. -/
def parseRoleValue (v : JsValue) : Except ACError RoleItem :=
  match v with
  | .obj fields => do
      let rawGrants :=
        match lookupField fields "grants" with
        | some (.arr xs) => xs
        | _ => []
      let grants ← rawGrants.mapM (fun gv =>
        match gv with
        | .obj gfields =>
            match lookupStr gfields "resource", lookupStr gfields "action" with
            | some res, some act =>
                .ok { resource := res, action := act,
                      attributes := parseAttributes gfields,
                      condition := lookupField gfields "condition" : Grant }
            | _, _ => .error (.invalidGrantsFormat "Invalid grant object")
        | _ => .error (.invalidGrantsFormat "Invalid grant object"))
      let ext :=
        match lookupField fields "$extend" with
        | some (.obj entries) => entries.map (fun p => (p.1, parseExtEntry p.2))
        | _ => []
      let score : Int :=
        match lookupField fields "score" with
        | some (.num n) => n
        | _ => 1
      .ok { grants := grants, ext := ext, score := score }
  | _ => .error (.invalidGrantsFormat "Invalid grants object")

/-- Modelled from the spec: `CommonUtil.normalizeGrantsObject` (utils, not in
src) turns the object-shaped input keyed by role name into the canonical role
map (spec §4.1). -/
def normalizeGrantsObject (v : JsValue) : Except ACError Grants :=
  match v with
  | .obj roleEntries =>
      roleEntries.foldlM
        (fun g p => do
          let item ← parseRoleValue p.2
          pure (setRole g p.1 item))
        ([] : Grants)
  | _ => .error (.invalidGrantsFormat "Invalid grants object")

/-- Embeds `AccessControl.setGrants` (src/src/AccessControl.ts, lines
107-116) faithfully: the store is first reset to empty; an `object` input goes
through `normalizeGrantsObject`, an `array` input is committed record by
record, and any other input leaves the freshly reset, empty store — the source
has no `else` branch that raises. -/
def setGrants (grantsObject : JsValue) : Except ACError Grants :=
  if jsType grantsObject == "object" then
    normalizeGrantsObject grantsObject
  else if jsType grantsObject == "array" then
    match grantsObject with
    | .arr items => items.foldlM commitToGrants ([] : Grants)
    | _ => .ok []
  else
    .ok []

/-! ## Role expansion and the attribute union

The query side (`CommonUtil.getUnionAttrsOfRoles` and friends, utils, not in
src) is modelled from spec §4.1/§4.3.  Condition evaluation against the
query's context is the ConditionEvaluator component, whose leaf primitives the
spec leaves as black boxes; it enters the model as a total acceptance
predicate `accept : JsValue → Bool` (the context is baked into it), applied to
a grant's or extension's condition when one is present. -/

/-- A grant or extension without a condition is always accepted (spec §4.3:
"or carries no condition"); otherwise the acceptance predicate decides. -/
def okOpt (accept : JsValue → Bool) : Option JsValue → Bool
  | none => true
  | some c => accept c

/-- Modelled from the spec: the roles directly inherited by `r` whose
extension condition is accepted against the querying context (spec §4.1:
traversal over `$extend`; §4.1 `extendRole`: "extended permissions are only
inherited while the condition holds against the querying context"). -/
def extNeighbors (accept : JsValue → Bool) (g : Grants) (r : String) :
    List String :=
  match lookupRole g r with
  | some item =>
      (item.ext.filter (fun p => okOpt accept p.2.condition)).map (·.1)
  | none => []

/-- One saturation round of the role expansion: the current set plus every
accepted direct neighbour, deduplicated. -/
def satStep (accept : JsValue → Bool) (g : Grants) (s : List String) :
    List String :=
  (s ++ s.flatMap (extNeighbors accept g)).dedup

/-- Modelled from the spec: fuelled traversal collecting every transitively
reachable role exactly once (spec §4.1: "perform a traversal ... over
`$extend`, collecting every transitively reachable role exactly once (a
visited-set prevents reprocessing)").  The fuel stops the iteration at the
fixed point; `reachableRoles` supplies enough fuel for the fixed point to be
reached. -/
def saturate (accept : JsValue → Bool) (g : Grants) :
    Nat → List String → List String
  | 0, s => s
  | n + 1, s =>
      let s' := satStep accept g s
      if s'.length = s.length then s else saturate accept g n s'

/-- Every `$extend` target occurring anywhere in the store. -/
def extTargets (g : Grants) : List String :=
  g.flatMap (fun p => p.2.ext.map (·.1))

/-- Every name a traversal can ever add: the roots plus every `$extend`
target occurring in the store. -/
def extUniverse (g : Grants) (roots : List String) : List String :=
  roots ++ extTargets g

/-- Modelled from the spec: the role-expansion of a starting role set
(spec §4.1), as the saturation of the deduplicated roots under accepted
`$extend` edges. -/
def reachableRoles (accept : JsValue → Bool) (g : Grants)
    (roots : List String) : List String :=
  saturate accept g ((extUniverse g roots).dedup.length + 1) roots.dedup

/-- Reachability by extension, following the spec's words (§4.1, §8): a role
reaches itself, and reaches every accepted `$extend` target of a role it
reaches. -/
inductive ReachableByExt (accept : JsValue → Bool) (g : Grants)
    (a : String) : String → Prop where
  | refl : ReachableByExt accept g a a
  | step {b c : String} : ReachableByExt accept g a b →
      c ∈ extNeighbors accept g b → ReachableByExt accept g a c

/-- A permission query (spec §3 `QueryInfo`; src `IQueryInfo`).  The roles are
kept as the string list `ArrayUtil.toStringArray` would produce; the runtime
context does not appear here because condition evaluation against it is the
acceptance predicate. -/
structure IQueryInfo where
  role : List String
  resource : Option String
  action : Option String
  possession : Option String

/-- Modelled from the spec: whether a stored action key satisfies the query's
action/possession (spec §3, §4.3: the wildcard action, the exact action, the
generic form without possession — bare meaning `any` — or the
`action:possession` form; an absent possession filter defaults to `any`). -/
def actionMatches (ga : String) (q : IQueryInfo) : Bool :=
  match q.action with
  | none => true
  | some a =>
      let poss := q.possession.getD "any"
      ga == "*" || ga == a || ga == a ++ ":" ++ poss

/-- Modelled from the spec: whether a grant matches a query (spec §4.3):
resource equal to the queried one (or the wildcard), action key matching, and
the grant's condition — when present — accepted against the context. -/
def grantMatches (accept : JsValue → Bool) (q : IQueryInfo) (gr : Grant) :
    Bool :=
  (match q.resource with
   | none => true
   | some res => gr.resource == res || gr.resource == "*")
  && actionMatches gr.action q
  && okOpt accept gr.condition

/-- The matching grant attributes a single role contributes to a query: the
concatenated attribute lists of its accepted matching grants (a role absent
from the store contributes nothing). -/
def roleMatchingAttrs (accept : JsValue → Bool) (g : Grants) (q : IQueryInfo)
    (r : String) : List String :=
  match lookupRole g r with
  | some item =>
      (item.grants.filter (grantMatches accept q)).flatMap (·.attributes)
  | none => []

/-- Modelled from the spec: `CommonUtil.getUnionAttrsOfRoles` (utils, not in
src; called by `AccessControl.permission`, src/src/AccessControl.ts line 317):
expand the queried role set, collect every reachable role's matching grant
attributes, and union them with duplicate patterns collapsed (spec §4.3). -/
def getUnionAttrsOfRoles (accept : JsValue → Bool) (g : Grants)
    (q : IQueryInfo) : List String :=
  ((reachableRoles accept g q.role).flatMap
      (roleMatchingAttrs accept g q)).dedup

/-- Modelled from the spec: the `Permission` result object (core, not in src;
spec §3: `{granted: bool, attributes: list<GlobPattern>}`), with `granted`
computed as `attributes.length > 0` (spec §4.3). -/
structure Permission where
  attributes : List String
  granted : Bool

/-- Embeds `AccessControl.permission` (src/src/AccessControl.ts, lines
316-318):
builds the `Permission` from the resolved attribute union. -/
def permission (accept : JsValue → Bool) (g : Grants) (q : IQueryInfo) :
    Permission :=
  let attrs := getUnionAttrsOfRoles accept g q
  { attributes := attrs, granted := decide (0 < attrs.length) }

/-- A two-role store with inheritance, used by the concrete examples below:
`admin` extends `user`; `user` may read own profiles, `admin` may also delete
any video. -/
def sampleGrants : Grants :=
  [("user",
    { grants := [{ resource := "profile", action := "read:own",
                   attributes := ["*", "!password"], condition := none }],
      ext := [], score := 1 }),
   ("admin",
    { grants := [{ resource := "video", action := "delete:any",
                   attributes := ["*"], condition := none }],
      ext := [("user", {})], score := 2 })]

/-- A query none of `sampleGrants`' grants matches (no grant concerns the
`payment` resource). -/
def sampleQueryNoMatch : IQueryInfo :=
  { role := ["admin"], resource := some "payment",
    action := some "read", possession := some "own" }

/-- A two-role query against `sampleGrants` (the role `x` does not exist,
which the resolver tolerates). -/
def sampleQueryTwoRoles : IQueryInfo :=
  { role := ["x", "admin"], resource := some "profile",
    action := some "read", possession := some "own" }

/-- The store `sampleGrants` after a successful `extendRole("admin", "user")`: admin's
score grew by user's score plus one. -/
def sampleGrantsExtended : Grants :=
  [("user",
    { grants := [{ resource := "profile", action := "read:own",
                   attributes := ["*", "!password"], condition := none }],
      ext := [], score := 1 }),
   ("admin",
    { grants := [{ resource := "video", action := "delete:any",
                   attributes := ["*"], condition := none }],
      ext := [("user", {})], score := 4 })]

/-- A minimal two-role store with no extensions, both roles of score 1. -/
def twoRoles : Grants :=
  [("a", { grants := [], ext := [], score := 1 }),
   ("b", { grants := [], ext := [], score := 1 })]

/-! ## Role extension (`extendRole`) -/

/-- The record a role auto-created by `extendRole` starts from (score 1,
like a role created on first grant). -/
def newRoleItem : RoleItem := { grants := [], ext := [], score := 1 }

/-- The successful-extension update of a role record (spec §4.1): score grows
by the extender's score plus one and the extender is recorded in `$extend`
with the optional gating condition. -/
def extendedItem (item : RoleItem) (extender : String) (extScore : Int)
    (cond : Option JsValue) : RoleItem :=
  { item with
      score := item.score + extScore + 1,
      ext := setExt item.ext extender { condition := cond } }

/-- Modelled from the spec: one (role, extenderRole) step of
`CommonUtil.extendRole` (utils, not in src; wrapped by
`AccessControl.extendRole`, src/src/AccessControl.ts lines 149-152).
Spec §4.1: fails with `CycleError` if the extender role does not exist or if
extending would create a cycle (the role would extend itself transitively —
checked against the structural `$extend` edges, conditions ignored); on
success applies `extendedItem`, auto-creating the role but never the
extender.  Spec §8 requires a failing call to leave the graph unchanged, so
validation precedes any update. -/
def extendRolePair (g : Grants) (role extender : String)
    (cond : Option JsValue) : Except ACError Grants :=
  match lookupRole g extender with
  | none => .error (.cycleError ("Role " ++ extender ++ " does not exist"))
  | some extItem =>
      if role == extender
          || (reachableRoles (fun _ => true) g [extender]).contains role then
        .error (.cycleError
          ("Role " ++ role ++ " cannot extend itself or create a cycle"))
      else
        .ok (setRole g role
          (extendedItem ((lookupRole g role).getD newRoleItem) extender
            extItem.score cond))

/-- Embeds `CommonUtil.extendRole` over role lists (spec §4.1: "for every pair
(role, extenderRole)"), pairs processed left to right, the first failure
propagating. -/
def extendRole (g : Grants) (roles extenderRoles : List String)
    (cond : Option JsValue) : Except ACError Grants :=
  roles.foldlM
    (fun acc r =>
      extenderRoles.foldlM (fun acc2 er => extendRolePair acc2 r er cond) acc)
    g

/-- The store an `AccessControl` instance holds after calling `extendRole`:
on success the updated graph, on a thrown error the previous graph — the
spec's "leave the graph unchanged" (§8). -/
def extendRoleState (g : Grants) (roles extenderRoles : List String)
    (cond : Option JsValue) : Grants × Option ACError :=
  match extendRole g roles extenderRoles cond with
  | .ok g' => (g', none)
  | .error e => (g, some e)

/-- Whether a call failed with the spec taxonomy's `CycleError`. -/
def isCycleError {α : Type} : Except ACError α → Bool
  | .error (.cycleError _) => true
  | _ => false

/-! ## Role removal (`removeRoles`) -/

/-- JavaScript's default `Array.prototype.sort()` on strings compares code
units; embedded as an insertion sort over code points (identical on the ASCII
role names the engine deals in).  `String` order from the library is avoided
because the embedding must evaluate inside the kernel. -/
def charLt (c d : Char) : Bool := decide (c.toNat < d.toNat)

/-- Code-point-lexicographic string comparison used by `sortStrings`. -/
def strLe (a b : String) : Bool :=
  go a.data b.data
where
  go : List Char → List Char → Bool
  | [], _ => true
  | _ :: _, [] => false
  | c :: cs, d :: ds =>
      if charLt c d then true else if charLt d c then false else go cs ds

/-- Stable insertion of a string into a sorted list. -/
def insertSorted (x : String) : List String → List String
  | [] => [x]
  | y :: ys => if strLe y x then y :: insertSorted x ys else x :: y :: ys

/-- The `.sort()` call of `removeRoles` (src/src/AccessControl.ts line 164). -/
def sortStrings (l : List String) : List String :=
  l.foldr insertSorted []

/-- The inner `rolesToRemove.forEach` body of `removeRoles`
(src/src/AccessControl.ts lines 166-176) for the role record named `name`:
for each role `r` being removed that appears in the record's `$extend` map,
subtract `r`'s score — read from the store as it stands at that moment, the
in-place JS mutation being threaded through the fold — and delete the
`$extend` entry.  (The source would fail on a dangling `$extend` entry whose
target role is absent from the store; the embedding reads score 0 there.) -/
def removeRolesInner (toRemove : List String) (acc : Grants) (name : String) :
    Grants :=
  toRemove.foldl
    (fun a r =>
      match lookupRole a name with
      | none => a
      | some cur =>
          if (lookupExt cur.ext r).isSome then
            setRole a name
              { cur with
                  score := cur.score - (((lookupRole a r).map (·.score)).getD 0),
                  ext := cur.ext.filter (fun p => !(p.1 == r)) }
          else a)
    acc

/-- Embeds `AccessControl.removeRoles` (src/src/AccessControl.ts, lines
163-181):
sort the roles to remove, walk every role record of the store (key snapshot,
insertion order) stripping removed roles from its `$extend` map and adjusting
its score, then delete the removed roles themselves. -/
def removeRoles (g : Grants) (roles : List String) : Grants :=
  ((g.map Prod.fst).foldl (removeRolesInner (sortStrings roles)) g).filter
    (fun p => !((sortStrings roles).contains p.1))

/-- A role's stored score, if the role exists. -/
def scoreOf (g : Grants) (r : String) : Option Int :=
  (lookupRole g r).map (·.score)

/-! ## Attribute filtering (`AccessControl.filter`)

`AccessControl.filter` (src/src/AccessControl.ts, lines 453-455) delegates to
`CommonUtil.filterAll` (utils, not in src), which the spec describes in §4.4;
the definitions below are modelled from that description. -/

/-- A parsed attribute glob: optional negation marker, then dot-delimited
segments, a segment being a key or the wildcard (spec §3 `GlobPattern`).  The
empty string parses to an empty path, which admits nothing (spec §4.4:
an empty string empties the result). -/
structure AttrPattern where
  negated : Bool
  path : List String

/-- Splitting a character list on dots into glob segments (the library's
`String.splitOn` is byte-position based and does not evaluate inside the
kernel, so the split is spelled out over the character list). -/
def splitSegs : List Char → List Char → List String
  | [], cur => [String.mk cur.reverse]
  | c :: cs, cur =>
      if c == '.' then String.mk cur.reverse :: splitSegs cs []
      else splitSegs cs (c :: cur)

/-- Modelled from the spec: parsing one glob notation string — an optional
leading `!` negation marker, then dot-delimited segments; the empty string
yields the empty, nothing-admitting path. -/
def parsePattern (s : String) : AttrPattern :=
  match s.data with
  | [] => { negated := false, path := [] }
  | '!' :: rest => { negated := true, path := splitSegs rest [] }
  | cs => { negated := false, path := splitSegs cs [] }

/-- Specificity bucket of a pattern (spec §4.4: "wildcard-only patterns
first, negated patterns next, exact/dotted patterns last"). -/
def patternRank (p : AttrPattern) : Nat :=
  if p.negated then 1
  else if p.path.all (fun seg => seg == "*") then 0
  else 2

/-- Modelled from the spec: the specificity sort of §4.4 — stable bucketing
by `patternRank`, so later, more specific patterns win regardless of the
order the caller supplied them in. -/
def sortPatterns (ps : List AttrPattern) : List AttrPattern :=
  ps.filter (fun p => patternRank p == 0)
    ++ ps.filter (fun p => patternRank p == 1)
    ++ ps.filter (fun p => patternRank p == 2)

/-- Whether a glob segment matches an object key. -/
def segMatch (seg key : String) : Bool := seg == "*" || seg == key

/-- JS property assignment into an ordered field list. -/
def setField (fields : List (String × JsValue)) (k : String) (v : JsValue) :
    List (String × JsValue) :=
  if (fields.find? (fun p => p.1 == k)).isSome then
    fields.map (fun p => if p.1 == k then (p.1, v) else p)
  else
    fields ++ [(k, v)]

/-- Modelled from the spec: applying one non-negated pattern — copy from the
source object into the accumulated result every key path the glob admits,
whole subtrees for the final segment, recursing for inner segments (spec
§4.4: "walks nested object keys, including each key only if the cumulative
pattern application admits it"). -/
def admitPattern (data acc : JsValue) : List String → JsValue
  | [] => acc
  | [seg] =>
      match data, acc with
      | .obj dfields, .obj afields =>
          .obj (dfields.foldl
            (fun af kv =>
              if segMatch seg kv.1 then setField af kv.1 kv.2 else af)
            afields)
      | _, _ => acc
  | seg :: rest =>
      match data, acc with
      | .obj dfields, .obj afields =>
          .obj (dfields.foldl
            (fun af kv =>
              if segMatch seg kv.1 then
                setField af kv.1
                  (admitPattern kv.2 ((lookupField af kv.1).getD (.obj [])) rest)
              else af)
            afields)
      | _, _ => acc

/-- Modelled from the spec: applying one negated pattern — remove from the
accumulated result every key path the glob matches (spec §4.4). -/
def removePattern (acc : JsValue) : List String → JsValue
  | [] => acc
  | [seg] =>
      match acc with
      | .obj afields => .obj (afields.filter (fun kv => !segMatch seg kv.1))
      | _ => acc
  | seg :: rest =>
      match acc with
      | .obj afields =>
          .obj (afields.map (fun kv =>
            if segMatch seg kv.1 then (kv.1, removePattern kv.2 rest) else kv))
      | _ => acc

/-- Modelled from the spec: filtering a single data object (spec §4.4):
sort the parsed patterns by specificity, then starting from an empty result
admit what the non-negated patterns allow and strip what the negated
patterns exclude. -/
def filterObject (data : JsValue) (patterns : List String) : JsValue :=
  (sortPatterns (patterns.map parsePattern)).foldl
    (fun acc p =>
      if p.negated then removePattern acc p.path else admitPattern data acc p.path)
    (.obj [])

/-- Modelled from the spec: `CommonUtil.filterAll` (utils, not in src; called
by `AccessControl.filter`, src/src/AccessControl.ts line 454): an array of
data objects is filtered element-wise, anything else as a single object
(spec §4.4). -/
def filterAll (data : JsValue) (patterns : List String) : JsValue :=
  match data with
  | .arr xs => .arr (xs.map (fun x => filterObject x patterns))
  | _ => filterObject data patterns

/-- The spec's §8 example data object `{a:1, b:{c:2, d:3}}`. -/
def filterExampleData : JsValue :=
  .obj [("a", .num 1), ("b", .obj [("c", .num 2), ("d", .num 3)])]

/-- The specification's description of the resolved attribute union, stated
directly in the spec's words (§4.3, §8): an attribute belongs to the result
exactly when some queried role reaches, by extension, a role one of whose
matching grants carries it. -/
def specAttrMem (accept : JsValue → Bool) (g : Grants) (q : IQueryInfo)
    (attr : String) : Prop :=
  ∃ r ∈ q.role, ∃ r', ReachableByExt accept g r r'
    ∧ attr ∈ roleMatchingAttrs accept g q r'

/-! ## Association-list lemmas -/

theorem mem_of_lookupRole {g : Grants} {r : String} {it : RoleItem}
    (h : lookupRole g r = some it) : (r, it) ∈ g := by
  unfold lookupRole at h
  rcases Option.map_eq_some'.1 h with ⟨pr, hfind, hsnd⟩
  have hmem := List.mem_of_find?_eq_some hfind
  have hkey : pr.1 = r := by
    have := List.find?_some hfind
    simpa using this
  have : pr = (r, it) := by
    cases pr
    simp_all
  rwa [this] at hmem

theorem mem_keys_of_lookupRole {g : Grants} {r : String} {it : RoleItem}
    (h : lookupRole g r = some it) : r ∈ g.map Prod.fst :=
  List.mem_map.2 ⟨(r, it), mem_of_lookupRole h, rfl⟩

theorem lookupRole_setRole_self (g : Grants) (r : String) (it : RoleItem) :
    lookupRole (setRole g r it) r = some it := by
  induction g with
  | nil => simp [setRole, lookupRole]
  | cons p ps ih =>
      by_cases hp : p.1 == r
      · simp [setRole, hp, lookupRole, List.find?_cons_of_pos]
      · simpa [setRole, hp, lookupRole, List.find?_cons_of_neg, hp] using ih

theorem lookupRole_setRole_ne {r r' : String} (g : Grants) (it : RoleItem)
    (h : r' ≠ r) : lookupRole (setRole g r it) r' = lookupRole g r' := by
  induction g with
  | nil =>
      have : (r == r') = false := by
        simpa using fun he => h he.symm
      simp [setRole, lookupRole, this]
  | cons p ps ih =>
      by_cases hp : p.1 == r
      · have hpr : p.1 = r := eq_of_beq hp
        have : (p.1 == r') = false := by
          simp [hpr]
          exact fun he => h he.symm
        simp [setRole, hp, lookupRole, this]
      · by_cases hp' : p.1 == r'
        · simp [setRole, hp, lookupRole, List.find?_cons_of_pos, hp']
        · simpa [setRole, hp, lookupRole, List.find?_cons_of_neg, hp, hp']
            using ih

theorem map_fst_setRole {g : Grants} {r : String} {it0 : RoleItem}
    (it : RoleItem) (h : lookupRole g r = some it0) :
    (setRole g r it).map Prod.fst = g.map Prod.fst := by
  induction g with
  | nil => simp [lookupRole] at h
  | cons p ps ih =>
      by_cases hp : p.1 == r
      · simp [setRole, hp]
      · have h' : lookupRole ps r = some it0 := by
          simpa [lookupRole, List.find?_cons_of_neg, hp] using h
        simp [setRole, hp, ih h']

theorem lookupExt_setExt_self (e : List (String × ExtInfo)) (r : String)
    (info : ExtInfo) : lookupExt (setExt e r info) r = some info := by
  induction e with
  | nil => simp [setExt, lookupExt]
  | cons p ps ih =>
      by_cases hp : p.1 == r
      · simp [setExt, hp, lookupExt, List.find?_cons_of_pos]
      · simpa [setExt, hp, lookupExt, List.find?_cons_of_neg, hp] using ih

theorem mem_of_lookupExt {e : List (String × ExtInfo)} {r : String}
    {info : ExtInfo} (h : lookupExt e r = some info) : (r, info) ∈ e := by
  unfold lookupExt at h
  rcases Option.map_eq_some'.1 h with ⟨pr, hfind, hsnd⟩
  have hmem := List.mem_of_find?_eq_some hfind
  have hkey : pr.1 = r := by
    have := List.find?_some hfind
    simpa using this
  have : pr = (r, info) := by
    cases pr
    simp_all
  rwa [this] at hmem

theorem lookupRole_cons_of_neg {p : String × RoleItem} {ps : Grants}
    {r : String} (hp : ¬(p.1 == r) = true) :
    lookupRole (p :: ps) r = lookupRole ps r := by
  unfold lookupRole
  rw [@List.find?_cons_of_neg _ (fun q => q.1 == r) p ps hp]

theorem lookupRole_filter_not_contains {g : Grants} {toRemove : List String}
    {r : String} (h : toRemove.contains r = false) :
    lookupRole (g.filter (fun p => !(toRemove.contains p.1))) r =
      lookupRole g r := by
  induction g with
  | nil => rfl
  | cons p ps ih =>
      by_cases hp : (p.1 == r) = true
      · have hpr : p.1 = r := eq_of_beq hp
        have hkeep : (toRemove.contains p.1) = false := by rw [hpr]; exact h
        rw [List.filter_cons_of_pos (by rw [hkeep]; rfl)]
        unfold lookupRole
        rw [@List.find?_cons_of_pos _ (fun q => q.1 == r) p
              (ps.filter (fun q => !(toRemove.contains q.1))) hp,
            @List.find?_cons_of_pos _ (fun q => q.1 == r) p ps hp]
      · by_cases hkeep : toRemove.contains p.1 = true
        · rw [List.filter_cons_of_neg (by rw [hkeep]; exact Bool.false_ne_true)]
          rw [lookupRole_cons_of_neg hp]
          exact ih
        · rw [List.filter_cons_of_pos
            (by rw [Bool.of_not_eq_true hkeep]; rfl)]
          rw [lookupRole_cons_of_neg hp, lookupRole_cons_of_neg hp]
          exact ih

/-! ## Saturation: the role-expansion traversal reaches exactly the
transitively reachable roles -/

theorem mem_satStep {accept : JsValue → Bool} {g : Grants} {s : List String}
    {x : String} :
    x ∈ satStep accept g s ↔
      x ∈ s ∨ ∃ y ∈ s, x ∈ extNeighbors accept g y := by
  simp [satStep, List.mem_dedup, List.mem_append, List.mem_flatMap]

theorem subset_satStep {accept : JsValue → Bool} {g : Grants}
    {s : List String} : s ⊆ satStep accept g s :=
  fun _ hx => mem_satStep.2 (Or.inl hx)

theorem nodup_satStep (accept : JsValue → Bool) (g : Grants)
    (s : List String) : (satStep accept g s).Nodup :=
  List.nodup_dedup _

theorem extNeighbors_subset_extTargets {accept : JsValue → Bool} {g : Grants}
    {r : String} : extNeighbors accept g r ⊆ extTargets g := by
  intro x hx
  unfold extNeighbors at hx
  cases hlook : lookupRole g r with
  | none => rw [hlook] at hx; simp at hx
  | some item =>
      rw [hlook] at hx
      rcases List.mem_map.1 hx with ⟨p, hpmem, hpfst⟩
      have hpin : p ∈ item.ext := List.mem_of_mem_filter hpmem
      exact List.mem_flatMap.2
        ⟨(r, item), mem_of_lookupRole hlook, List.mem_map.2 ⟨p, hpin, hpfst⟩⟩

theorem saturate_spec (accept : JsValue → Bool) (g : Grants)
    (U : List String) (hT : ∀ x ∈ extTargets g, x ∈ U) :
    ∀ (fuel : Nat) (s : List String), s.Nodup → (∀ x ∈ s, x ∈ U) →
      U.dedup.length + 1 ≤ fuel + s.length →
      (saturate accept g fuel s).Nodup
      ∧ (∀ x ∈ s, x ∈ saturate accept g fuel s)
      ∧ (∀ x ∈ saturate accept g fuel s, x ∈ U)
      ∧ (∀ x ∈ satStep accept g (saturate accept g fuel s),
          x ∈ saturate accept g fuel s) := by
  intro fuel
  induction fuel with
  | zero =>
      intro s hnd hsU harith
      exfalso
      have hsub : s ⊆ U.dedup := fun x hx => List.mem_dedup.2 (hsU x hx)
      have hlen : s.length ≤ U.dedup.length :=
        (List.subperm_of_subset hnd hsub).length_le
      omega
  | succ n ih =>
      intro s hnd hsU harith
      have hsubp : List.Subperm s (satStep accept g s) :=
        List.subperm_of_subset hnd
          (@subset_satStep accept g s)
      rw [saturate]
      by_cases hlen : (satStep accept g s).length = s.length
      · rw [if_pos hlen]
        have hperm : s.Perm (satStep accept g s) :=
          hsubp.perm_of_length_le (le_of_eq hlen)
        refine ⟨hnd, fun x hx => hx, hsU, ?_⟩
        intro x hx
        exact hperm.mem_iff.2 hx
      · rw [if_neg hlen]
        have hnd' := nodup_satStep accept g s
        have hsU' : ∀ x ∈ satStep accept g s, x ∈ U := by
          intro x hx
          rcases mem_satStep.1 hx with hx | ⟨y, _, hxy⟩
          · exact hsU x hx
          · exact hT x (extNeighbors_subset_extTargets hxy)
        have hgrow : s.length < (satStep accept g s).length := by
          have := hsubp.length_le
          omega
        have harith' : U.dedup.length + 1 ≤ n + (satStep accept g s).length := by
          omega
        rcases ih (satStep accept g s) hnd' hsU' harith' with ⟨h1, h2, h3, h4⟩
        exact ⟨h1, fun x hx => h2 x (subset_satStep hx), h3, h4⟩

theorem saturate_sound (accept : JsValue → Bool) (g : Grants)
    (P : String → Prop)
    (hstep : ∀ x y, P y → x ∈ extNeighbors accept g y → P x) :
    ∀ (fuel : Nat) (s : List String), (∀ x ∈ s, P x) →
      ∀ x ∈ saturate accept g fuel s, P x := by
  intro fuel
  induction fuel with
  | zero => intro s hs x hx; exact hs x hx
  | succ n ih =>
      intro s hs x hx
      rw [saturate] at hx
      by_cases hlen : (satStep accept g s).length = s.length
      · rw [if_pos hlen] at hx
        exact hs x hx
      · rw [if_neg hlen] at hx
        refine ih (satStep accept g s) ?_ x hx
        intro z hz
        rcases mem_satStep.1 hz with hz | ⟨y, hy, hzy⟩
        · exact hs z hz
        · exact hstep z y (hs y hy) hzy

/-- The saturation-based role-expansion computes exactly reachability by
extension: soundness and completeness of the traversal of spec §4.1. -/
theorem mem_reachableRoles (accept : JsValue → Bool) (g : Grants)
    (roots : List String) (x : String) :
    x ∈ reachableRoles accept g roots ↔
      ∃ r ∈ roots, ReachableByExt accept g r x := by
  constructor
  · intro hx
    refine saturate_sound accept g
      (fun z => ∃ r ∈ roots, ReachableByExt accept g r z) ?_ _ _ ?_ x hx
    · rintro z y ⟨r, hr, hreach⟩ hzy
      exact ⟨r, hr, hreach.step hzy⟩
    · intro z hz
      exact ⟨z, List.mem_dedup.1 hz, ReachableByExt.refl⟩
  · rintro ⟨r, hr, hreach⟩
    have hT : ∀ z ∈ extTargets g, z ∈ extUniverse g roots := by
      intro z hz
      exact List.mem_append_right _ hz
    have hspec := saturate_spec accept g (extUniverse g roots) hT
      ((extUniverse g roots).dedup.length + 1) roots.dedup
      (List.nodup_dedup roots)
      (fun z hz => List.mem_append_left _ (List.mem_dedup.1 hz))
      (by omega)
    rcases hspec with ⟨_, hsub, _, hclosed⟩
    unfold reachableRoles
    induction hreach with
    | refl =>
        exact hsub r (List.mem_dedup.2 hr)
    | step hab hc ihab =>
        exact hclosed _ (mem_satStep.2 (Or.inr ⟨_, ihab, hc⟩))

/-! ## The attribute union -/

theorem mem_getUnionAttrsOfRoles (accept : JsValue → Bool) (g : Grants)
    (q : IQueryInfo) (attr : String) :
    attr ∈ getUnionAttrsOfRoles accept g q ↔ specAttrMem accept g q attr := by
  unfold getUnionAttrsOfRoles specAttrMem
  rw [List.mem_dedup, List.mem_flatMap]
  constructor
  · rintro ⟨r', hr', hattr⟩
    rcases (mem_reachableRoles accept g q.role r').1 hr' with ⟨r, hr, hreach⟩
    exact ⟨r, hr, r', hreach, hattr⟩
  · rintro ⟨r, hr, r', hreach, hattr⟩
    exact ⟨r', (mem_reachableRoles accept g q.role r').2 ⟨r, hr, hreach⟩, hattr⟩

theorem nodup_getUnionAttrsOfRoles (accept : JsValue → Bool) (g : Grants)
    (q : IQueryInfo) : (getUnionAttrsOfRoles accept g q).Nodup :=
  List.nodup_dedup _

theorem roleMatchingAttrs_eq_nil {accept : JsValue → Bool} {g : Grants}
    {q : IQueryInfo}
    (h : ∀ p ∈ g, ∀ gr ∈ p.2.grants, grantMatches accept q gr = false)
    (r : String) : roleMatchingAttrs accept g q r = [] := by
  unfold roleMatchingAttrs
  cases hl : lookupRole g r with
  | none => rfl
  | some item =>
      have hmem := mem_of_lookupRole hl
      have hfilter : item.grants.filter (grantMatches accept q) = [] := by
        rw [List.filter_eq_nil_iff]
        intro gr hgr
        rw [h (r, item) hmem gr hgr]
        exact Bool.false_ne_true
      simp only [hfilter]
      rfl

theorem getUnionAttrsOfRoles_eq_nil {accept : JsValue → Bool} {g : Grants}
    {q : IQueryInfo}
    (h : ∀ p ∈ g, ∀ gr ∈ p.2.grants, grantMatches accept q gr = false) :
    getUnionAttrsOfRoles accept g q = [] := by
  rw [List.eq_nil_iff_forall_not_mem]
  intro a ha
  rcases (mem_getUnionAttrsOfRoles accept g q a).1 ha with ⟨r, _, r', _, hattr⟩
  rw [roleMatchingAttrs_eq_nil h r'] at hattr
  exact List.not_mem_nil a hattr

/-! ## Claim C1 -/

/-- C1: for every query, the `Permission` returned by `permission` has
`granted` equal to `attributes.length > 0`; and a query matching no grant is
not an error — it yields `granted = false` with empty `attributes`. -/
theorem C1_granted_iff_nonempty_attributes (accept : JsValue → Bool)
    (g : Grants) (q : IQueryInfo) :
    (permission accept g q).granted =
      decide (0 < (permission accept g q).attributes.length)
    ∧ ((∀ p ∈ g, ∀ gr ∈ p.2.grants, grantMatches accept q gr = false) →
        (permission accept g q).attributes = []
        ∧ (permission accept g q).granted = false) := by
  refine ⟨rfl, ?_⟩
  intro h
  have hnil := getUnionAttrsOfRoles_eq_nil h
  unfold permission
  simp [hnil]

/-- Witness for C1 at a concrete store and query matched by no grant. -/
theorem C1_witness :
    (∀ p ∈ sampleGrants, ∀ gr ∈ p.2.grants,
        grantMatches (fun _ => true) sampleQueryNoMatch gr = false)
    ∧ (permission (fun _ => true) sampleGrants sampleQueryNoMatch).attributes = []
    ∧ (permission (fun _ => true) sampleGrants sampleQueryNoMatch).granted = false :=
  ⟨by decide,
   (C1_granted_iff_nonempty_attributes (fun _ => true) sampleGrants
      sampleQueryNoMatch).2 (by decide)⟩

/-! ## Claim C2 -/

/-- C2: the resolved attribute union is duplicate-free, its membership is
exactly the spec's "deduplicated union of the matching grant attributes of
every role reachable from the queried roles by extension" (`specAttrMem`),
and permuting the queried role list leaves the result unchanged as a set. -/
theorem C2_union_over_reachable_roles (accept : JsValue → Bool) (g : Grants)
    (q : IQueryInfo) :
    (getUnionAttrsOfRoles accept g q).Nodup
    ∧ (∀ attr, attr ∈ getUnionAttrsOfRoles accept g q ↔
        specAttrMem accept g q attr)
    ∧ (∀ roles', roles'.Perm q.role → ∀ attr,
        attr ∈ getUnionAttrsOfRoles accept g { q with role := roles' } ↔
          attr ∈ getUnionAttrsOfRoles accept g q) := by
  refine ⟨nodup_getUnionAttrsOfRoles accept g q,
    mem_getUnionAttrsOfRoles accept g q, ?_⟩
  intro roles' hperm attr
  rw [mem_getUnionAttrsOfRoles, mem_getUnionAttrsOfRoles]
  unfold specAttrMem
  constructor
  · rintro ⟨r, hr, r', hreach, hattr⟩
    exact ⟨r, hperm.mem_iff.1 hr, r', hreach, hattr⟩
  · rintro ⟨r, hr, r', hreach, hattr⟩
    exact ⟨r, hperm.mem_iff.2 hr, r', hreach, hattr⟩

/-! ## OrCondition guard lemmas (shared by C4, C5 and C10) -/

theorem orEval_of_falsy_args {subEval : JsValue → JsValue → Except ACError Bool}
    {args context : JsValue} (h : truthy args = false) :
    orConditionEvaluate subEval args context = .ok true := by
  simp [orConditionEvaluate, h]

theorem orEval_of_falsy_context
    {subEval : JsValue → JsValue → Except ACError Bool}
    {args context : JsValue} (h1 : truthy args = true)
    (h2 : truthy context = false) :
    orConditionEvaluate subEval args context = .ok false := by
  simp [orConditionEvaluate, h1, h2]

theorem orEval_of_scalar_args
    {subEval : JsValue → JsValue → Except ACError Bool}
    {args context : JsValue} (h1 : truthy args = true)
    (h2 : truthy context = true) (h3 : jsType args ≠ "array")
    (h4 : jsType args ≠ "object") :
    orConditionEvaluate subEval args context =
      .error (.invalidConditionArgs
        "OrCondition expects type of args to be array or object") := by
  have e3 : (jsType args == "array") = false := beq_eq_false_iff_ne.2 h3
  have e4 : (jsType args == "object") = false := beq_eq_false_iff_ne.2 h4
  simp [orConditionEvaluate, h1, h2, bne, e3, e4]

/-! ## Claim C4 -/

/-- C4: an OR condition over an empty operand list with a context present
evaluates to `false`, while evaluating with no condition expression supplied
at all (JS `undefined`) evaluates to `true`, whatever the context and
whatever the sub-condition evaluator. -/
theorem C4_or_empty_vs_absent
    (subEval : JsValue → JsValue → Except ACError Bool) (context : JsValue) :
    (truthy context = true →
      orConditionEvaluate subEval (.arr []) context = .ok false)
    ∧ orConditionEvaluate subEval .undef context = .ok true := by
  constructor
  · intro hc
    have : orConditionEvaluate subEval (.arr []) context =
        if !truthy context then .ok false
        else ([] : List JsValue).foldlM
          (fun result condition =>
            if result then pure true else subEval condition context)
          false := rfl
    rw [this, hc]
    rfl
  · exact orEval_of_falsy_args rfl

/-- Witness for C4 at a concrete context. -/
theorem C4_witness :
    truthy (.obj [("status", .str "active")]) = true
    ∧ orConditionEvaluate (fun _ _ => .ok true) (.arr [])
        (.obj [("status", .str "active")]) = .ok false :=
  ⟨rfl,
   (C4_or_empty_vs_absent (fun _ _ => .ok true)
      (.obj [("status", .str "active")])).1 rfl⟩

/-! ## Claim C5 (corrected) -/

/-- C5 counterexample: the number `0` is a scalar (neither array nor object),
yet evaluating an OR condition with it — here with a context present —
returns `ok true` instead of failing with `InvalidConditionArgs`, because the
source's falsy-args guard (src/unnamed/part_001, line 15) runs before the
type validation. -/
theorem C5_counterexample :
    orConditionEvaluate (fun _ _ => .ok false) (.num 0)
      (.obj [("role", .str "u")]) = .ok true := by rfl

/-- C5 (amended): for every *truthy* args value that is neither an array nor
an object, evaluating an OR condition *with a context present* fails with
`InvalidConditionArgs`; falsy scalars return `ok true` and, without a
context, truthy scalars return `ok false` instead. -/
theorem C5_truthy_scalar_args_fail
    (subEval : JsValue → JsValue → Except ACError Bool)
    (args context : JsValue) (h1 : truthy args = true)
    (h2 : truthy context = true) (h3 : jsType args ≠ "array")
    (h4 : jsType args ≠ "object") :
    orConditionEvaluate subEval args context =
      .error (.invalidConditionArgs
        "OrCondition expects type of args to be array or object") :=
  orEval_of_scalar_args h1 h2 h3 h4

/-- Witness for C5 (amended) at a concrete truthy scalar and context. -/
theorem C5_witness :
    truthy (.str "nonsense") = true
    ∧ jsType (.str "nonsense") ≠ "array"
    ∧ orConditionEvaluate (fun _ _ => .ok false) (.str "nonsense")
        (.obj [("role", .str "u")]) =
      .error (.invalidConditionArgs
        "OrCondition expects type of args to be array or object") :=
  ⟨by decide, by decide,
   C5_truthy_scalar_args_fail (fun _ _ => .ok false) (.str "nonsense")
     (.obj [("role", .str "u")]) (by decide) rfl (by decide) (by decide)⟩

/-! ## Claim C10 -/

/-- C10: the guards of `OrCondition.evaluate` fire in a fixed order before
any type validation: falsy args always yield `ok true`; truthy args with a
falsy context always yield `ok false` — even for an invalid scalar, with no
error and no sub-condition evaluated (the result is the same for every
`subEval`); only with truthy args and a truthy context is the args type
validated, a scalar then failing with `InvalidConditionArgs`. -/
theorem C10_guard_precedence
    (subEval : JsValue → JsValue → Except ACError Bool)
    (args context : JsValue) :
    (truthy args = false → orConditionEvaluate subEval args context = .ok true)
    ∧ (truthy args = true → truthy context = false →
        orConditionEvaluate subEval args context = .ok false)
    ∧ (truthy args = true → truthy context = true →
        jsType args ≠ "array" → jsType args ≠ "object" →
        orConditionEvaluate subEval args context =
          .error (.invalidConditionArgs
            "OrCondition expects type of args to be array or object")) :=
  ⟨fun h => orEval_of_falsy_args h,
   fun h1 h2 => orEval_of_falsy_context h1 h2,
   fun h1 h2 h3 h4 => orEval_of_scalar_args h1 h2 h3 h4⟩

/-- Witness for C10: an invalid scalar args with no context returns `ok
false` even under a sub-evaluator that would fail if it were ever called. -/
theorem C10_witness :
    truthy (.num 7) = true
    ∧ truthy .undef = false
    ∧ orConditionEvaluate (fun _ _ => .error (.unknownPredicate "boom"))
        (.num 7) .undef = .ok false :=
  ⟨by decide, rfl,
   (C10_guard_precedence (fun _ _ => .error (.unknownPredicate "boom"))
      (.num 7) .undef).2.1 (by decide) rfl⟩

/-! ## Claim C3 (corrected) -/

/-- C3 counterexample: `setGrants` with a string, a number or `null` — all
neither object nor array — does *not* fail with `InvalidGrantsFormat`: the
source (src/src/AccessControl.ts, lines 107-116) has no failing branch and
simply leaves the freshly reset, empty store. -/
theorem C3_counterexample :
    setGrants (.str "foo") = .ok []
    ∧ setGrants (.num 5) = .ok []
    ∧ setGrants .null = .ok [] :=
  ⟨rfl, rfl, rfl⟩

/-- C3 (amended): a non-object, non-array input to `setGrants` is not an
error — it resets the store to empty; a flat-list record missing its `role`,
`resource` or `action` field does fail with `InvalidGrantsFormat`, both at
the record commit and through `setGrants` on a list carrying it. -/
theorem C3_setGrants_validation (v : JsValue) (g : Grants)
    (fields : List (String × JsValue)) (rest : List JsValue) :
    (jsType v ≠ "object" → jsType v ≠ "array" → setGrants v = .ok [])
    ∧ ((lookupStr fields "role" = none ∨ lookupStr fields "resource" = none
          ∨ lookupStr fields "action" = none) →
        commitToGrants g (.obj fields) =
          .error (.invalidGrantsFormat "Invalid grant item")
        ∧ setGrants (.arr (.obj fields :: rest)) =
          .error (.invalidGrantsFormat "Invalid grant item")) := by
  constructor
  · intro h1 h2
    cases v with
    | obj fields' => exact absurd rfl h1
    | arr items => exact absurd rfl h2
    | undef => rfl
    | null => rfl
    | bool b => rfl
    | num n => rfl
    | str s => rfl
  · intro h
    have hc : ∀ g' : Grants, commitToGrants g' (.obj fields) =
        .error (.invalidGrantsFormat "Invalid grant item") := by
      intro g'
      cases hr : lookupStr fields "role" <;>
        cases hres : lookupStr fields "resource" <;>
          cases ha : lookupStr fields "action" <;>
            simp_all [commitToGrants]
    refine ⟨hc g, ?_⟩
    have hstep : setGrants (.arr (.obj fields :: rest)) =
        commitToGrants [] (.obj fields) >>= fun s' =>
          rest.foldlM commitToGrants s' := rfl
    rw [hstep, hc []]
    rfl

/-- Witness for C3 (amended) at a concrete non-array input and a concrete
record missing its `resource` and `action` fields. -/
theorem C3_witness :
    jsType (.str "x") ≠ "object"
    ∧ setGrants (.str "x") = .ok []
    ∧ lookupStr [("role", JsValue.str "u")] "resource" = none
    ∧ setGrants (.arr [.obj [("role", .str "u")]]) =
        .error (.invalidGrantsFormat "Invalid grant item") :=
  ⟨by decide,
   (C3_setGrants_validation (.str "x") [] [("role", .str "u")] []).1
     (by decide) (by decide),
   by decide,
   ((C3_setGrants_validation (.str "x") [] [("role", .str "u")] []).2
     (Or.inr (Or.inl (by decide)))).2⟩

/-! ## Claim C6 -/

theorem okOpt_true (x : Option JsValue) : okOpt (fun _ => true) x = true := by
  cases x <;> rfl

theorem extendRole_single (g : Grants) (a b : String) (c : Option JsValue) :
    extendRole g [a] [b] c = extendRolePair g a b c := by
  have h : extendRole g [a] [b] c =
      (extendRolePair g a b c >>= pure) >>= pure := rfl
  rw [h]
  cases extendRolePair g a b c <;> rfl

theorem extendRolePair_self (g : Grants) (A : String) (c : Option JsValue) :
    ∃ msg, extendRolePair g A A c = .error (.cycleError msg) := by
  unfold extendRolePair
  cases h : lookupRole g A with
  | none => exact ⟨"Role " ++ A ++ " does not exist", rfl⟩
  | some it =>
      exact ⟨"Role " ++ A ++ " cannot extend itself or create a cycle",
        by simp⟩

theorem extendRolePair_missing {g : Grants} {A B : String}
    {c : Option JsValue} (h : lookupRole g B = none) :
    extendRolePair g A B c =
      .error (.cycleError ("Role " ++ B ++ " does not exist")) := by
  unfold extendRolePair
  rw [h]

theorem extendRolePair_ok_elim {g g' : Grants} {A B : String}
    {c : Option JsValue} (hok : extendRolePair g A B c = .ok g') :
    ∃ itB, lookupRole g B = some itB
      ∧ (A == B) = false
      ∧ g' = setRole g A
          (extendedItem ((lookupRole g A).getD newRoleItem) B itB.score c) := by
  unfold extendRolePair at hok
  split at hok
  · simp at hok
  · rename_i itB hB
    split at hok
    · simp at hok
    · rename_i hcond
      injection hok with hinj
      refine ⟨itB, hB, ?_, hinj.symm⟩
      cases hab : A == B
      · rfl
      · exact absurd (by rw [hab]; rfl) hcond

theorem extendRolePair_after_extend {g g' : Grants} {A B : String}
    {c : Option JsValue} (c' : Option JsValue)
    (hok : extendRolePair g A B c = .ok g') :
    ∃ msg, extendRolePair g' B A c' = .error (.cycleError msg) := by
  rcases extendRolePair_ok_elim hok with ⟨itB, hB, hAB, hg'⟩
  have hA' : lookupRole g' A =
      some (extendedItem ((lookupRole g A).getD newRoleItem) B itB.score c) := by
    rw [hg']
    exact lookupRole_setRole_self g A _
  have hnb : B ∈ extNeighbors (fun _ => true) g' A := by
    unfold extNeighbors
    rw [hA']
    refine List.mem_map.2 ⟨(B, { condition := c }), ?_, rfl⟩
    refine List.mem_filter.2 ⟨?_, okOpt_true _⟩
    exact mem_of_lookupExt (lookupExt_setExt_self _ _ _)
  have hreach : B ∈ reachableRoles (fun _ => true) g' [A] :=
    (mem_reachableRoles _ _ _ _).2
      ⟨A, List.mem_singleton.2 rfl, ReachableByExt.step ReachableByExt.refl hnb⟩
  have hcontains : ((reachableRoles (fun _ => true) g' [A]).contains B) = true :=
    List.elem_eq_true_of_mem hreach
  refine ⟨"Role " ++ B ++ " cannot extend itself or create a cycle", ?_⟩
  unfold extendRolePair
  rw [hA', hcontains]
  simp

/-- C6: `extendRole(A, A)` fails with `CycleError`; after a successful
`extendRole(A, B)`, the reverse `extendRole(B, A)` fails with `CycleError`;
`extendRole` by an extender role absent from the store fails with
`CycleError`; and in each failing case the grant graph the caller holds
(`extendRoleState`) is the unchanged one. -/
theorem C6_extendRole_cycle_errors (g : Grants) (A B : String)
    (c c' : Option JsValue) :
    (isCycleError (extendRole g [A] [A] c) = true
      ∧ (extendRoleState g [A] [A] c).1 = g)
    ∧ (∀ g', extendRole g [A] [B] c = .ok g' →
        isCycleError (extendRole g' [B] [A] c') = true
        ∧ (extendRoleState g' [B] [A] c').1 = g')
    ∧ (lookupRole g B = none →
        isCycleError (extendRole g [A] [B] c) = true
        ∧ (extendRoleState g [A] [B] c).1 = g) := by
  refine ⟨?_, ?_, ?_⟩
  · rcases extendRolePair_self g A c with ⟨msg, hmsg⟩
    constructor
    · rw [extendRole_single, hmsg]; rfl
    · unfold extendRoleState
      rw [extendRole_single, hmsg]
  · intro g' hok
    rw [extendRole_single] at hok
    rcases extendRolePair_after_extend c' hok with ⟨msg, hmsg⟩
    constructor
    · rw [extendRole_single, hmsg]; rfl
    · unfold extendRoleState
      rw [extendRole_single, hmsg]
  · intro hB
    constructor
    · rw [extendRole_single, extendRolePair_missing hB]; rfl
    · unfold extendRoleState
      rw [extendRole_single, extendRolePair_missing hB]

/-- Witness for C6 on a concrete store: self-extension, a concrete completed
extension followed by the reverse call, and a missing extender role. -/
theorem C6_witness :
    (isCycleError (extendRole sampleGrants ["user"] ["user"] none) = true
      ∧ (extendRoleState sampleGrants ["user"] ["user"] none).1 = sampleGrants)
    ∧ extendRole sampleGrants ["admin"] ["user"] none = .ok sampleGrantsExtended
    ∧ isCycleError (extendRole sampleGrantsExtended ["user"] ["admin"] none) = true
    ∧ (extendRoleState sampleGrantsExtended ["user"] ["admin"] none).1 =
        sampleGrantsExtended
    ∧ lookupRole sampleGrants "ghost" = none
    ∧ isCycleError (extendRole sampleGrants ["user"] ["ghost"] none) = true :=
  ⟨(C6_extendRole_cycle_errors sampleGrants "user" "user" none none).1,
   by rfl,
   ((C6_extendRole_cycle_errors sampleGrants "admin" "user" none none).2.1
      sampleGrantsExtended (by rfl)).1,
   ((C6_extendRole_cycle_errors sampleGrants "admin" "user" none none).2.1
      sampleGrantsExtended (by rfl)).2,
   by rfl,
   ((C6_extendRole_cycle_errors sampleGrants "user" "ghost" none none).2.2
      (by rfl)).1⟩

/-! ## Claim C7 (corrected)

`removeRoles` (in src) subtracts exactly the removed extender's score from an
extending role, while `extendRole` (spec-modelled) added the extender's score
*plus one*; the round trip therefore leaves the extending role's score one
above its original value. -/

theorem removeInner_step (acc : Grants) (n B : String) :
    removeRolesInner [B] acc n =
      match lookupRole acc n with
      | none => acc
      | some cur =>
          if (lookupExt cur.ext B).isSome then
            setRole acc n
              { cur with
                  score := cur.score -
                    (((lookupRole acc B).map (·.score)).getD 0),
                  ext := cur.ext.filter (fun p => !(p.1 == B)) }
          else acc := rfl

theorem removeInner_step_none {acc : Grants} {n B : String}
    (hn : lookupRole acc n = none) : removeRolesInner [B] acc n = acc := by
  rw [removeInner_step, hn]

theorem removeInner_step_some {acc : Grants} {n B : String} {cur : RoleItem}
    (hn : lookupRole acc n = some cur) :
    removeRolesInner [B] acc n =
      if (lookupExt cur.ext B).isSome then
        setRole acc n
          { cur with
              score := cur.score -
                (((lookupRole acc B).map (·.score)).getD 0),
              ext := cur.ext.filter (fun p => !(p.1 == B)) }
      else acc := by
  rw [removeInner_step, hn]

theorem removeInner_preserves_B {B : String} {itB : RoleItem}
    (hBB : lookupExt itB.ext B = none) (acc : Grants) (n : String)
    (h : lookupRole acc B = some itB) :
    lookupRole (removeRolesInner [B] acc n) B = some itB := by
  cases hn : lookupRole acc n with
  | none => rw [removeInner_step_none hn]; exact h
  | some cur =>
      rw [removeInner_step_some hn]
      by_cases his : (lookupExt cur.ext B).isSome = true
      · rw [if_pos his]
        by_cases hnb : n = B
        · subst hnb
          have hcur : cur = itB := by
            rw [hn] at h
            exact Option.some.inj h
          rw [hcur, hBB] at his
          simp at his
        · rw [lookupRole_setRole_ne _ _ (fun he => hnb he.symm)]
          exact h
      · rw [if_neg his]
        exact h

theorem foldl_removeInner_preserves_B {B : String} {itB : RoleItem}
    (hBB : lookupExt itB.ext B = none) :
    ∀ (ns : List String) (acc : Grants), lookupRole acc B = some itB →
      lookupRole (ns.foldl (removeRolesInner [B]) acc) B = some itB := by
  intro ns
  induction ns with
  | nil => intro acc h; exact h
  | cons n ns ih =>
      intro acc h
      rw [List.foldl_cons]
      exact ih _ (removeInner_preserves_B hBB acc n h)

theorem removeInner_preserves_ne {A B n : String} (hnA : n ≠ A)
    (acc : Grants) :
    lookupRole (removeRolesInner [B] acc n) A = lookupRole acc A := by
  cases hn : lookupRole acc n with
  | none => rw [removeInner_step_none hn]
  | some cur =>
      rw [removeInner_step_some hn]
      by_cases his : (lookupExt cur.ext B).isSome = true
      · rw [if_pos his]
        exact lookupRole_setRole_ne _ _ (fun he => hnA he.symm)
      · rw [if_neg his]

theorem foldl_removeInner_preserves_ne {A B : String} :
    ∀ (ns : List String) (acc : Grants), A ∉ ns →
      lookupRole (ns.foldl (removeRolesInner [B]) acc) A = lookupRole acc A := by
  intro ns
  induction ns with
  | nil => intro acc _; rfl
  | cons n ns ih =>
      intro acc hA
      have hnA : n ≠ A := by
        intro he
        exact hA (by rw [← he]; exact List.mem_cons_self n ns)
      rw [List.foldl_cons, ih _ (fun h => hA (List.mem_cons_of_mem n h)),
        removeInner_preserves_ne hnA]

/-- C7 counterexample: in the two-role store both scores are 1; extending
`a` by `b` (spec: score grows by the score of `b` plus one, to 3) and then
removing `b` (src: subtracts only the score of `b`) leaves `a` at score 2, not at
its original 1. -/
theorem C7_counterexample :
    scoreOf twoRoles "a" = some 1
    ∧ (extendRole twoRoles ["a"] ["b"] none).map
        (fun g' => scoreOf (removeRoles g' ["b"]) "a") = .ok (some 2) :=
  ⟨rfl, rfl⟩

/-- C7 (amended): for existing roles `A ≠ B` in a store with duplicate-free
role keys, where `B` does not extend itself, a successful
`extendRole(A, B)` followed by `removeRoles([B])` leaves the score of `A` at its
original value *plus one* — the extension added `B.score + 1`, the removal
subtracts only `B.score`. -/
theorem C7_score_roundtrip_off_by_one (g g' : Grants) (A B : String)
    (c : Option JsValue) (itA itB : RoleItem)
    (hnd : (g.map Prod.fst).Nodup)
    (hA : lookupRole g A = some itA)
    (hB : lookupRole g B = some itB)
    (hBB : lookupExt itB.ext B = none)
    (hok : extendRolePair g A B c = .ok g') :
    scoreOf (removeRoles g' [B]) A = some (itA.score + 1) := by
  rcases extendRolePair_ok_elim hok with ⟨itB', hB', hAB, hg'⟩
  rw [hB] at hB'
  have hitB : itB' = itB := (Option.some.inj hB').symm
  rw [hitB] at hg'
  have hABne : A ≠ B := by
    intro he
    rw [he] at hAB
    simp at hAB
  rw [hA] at hg'
  have hg'2 : g' = setRole g A (extendedItem itA B itB.score c) := by
    simpa using hg'
  have hA'g : lookupRole g' A = some (extendedItem itA B itB.score c) := by
    rw [hg'2]; exact lookupRole_setRole_self g A _
  have hB'g : lookupRole g' B = some itB := by
    rw [hg'2, lookupRole_setRole_ne _ _ (fun he => hABne he.symm)]
    exact hB
  have hkeys : g'.map Prod.fst = g.map Prod.fst := by
    rw [hg'2]; exact map_fst_setRole _ hA
  have hAmem : A ∈ g'.map Prod.fst := mem_keys_of_lookupRole hA'g
  have hnd' : (g'.map Prod.fst).Nodup := by rw [hkeys]; exact hnd
  rcases List.append_of_mem hAmem with ⟨ns₁, ns₂, hsplit⟩
  have hnotin : A ∉ ns₁ ∧ A ∉ ns₂ := by
    rw [hsplit] at hnd'
    rcases List.nodup_append.1 hnd' with ⟨_, hnd2, hdisj⟩
    exact ⟨fun h => hdisj h (List.mem_cons_self A ns₂),
      (List.nodup_cons.1 hnd2).1⟩
  have hsort : sortStrings [B] = [B] := rfl
  have hacc1A : lookupRole (ns₁.foldl (removeRolesInner [B]) g') A =
      some (extendedItem itA B itB.score c) := by
    rw [foldl_removeInner_preserves_ne ns₁ g' hnotin.1]
    exact hA'g
  have hacc1B : lookupRole (ns₁.foldl (removeRolesInner [B]) g') B =
      some itB := foldl_removeInner_preserves_B hBB ns₁ g' hB'g
  have his : (lookupExt (extendedItem itA B itB.score c).ext B).isSome = true := by
    unfold extendedItem
    rw [lookupExt_setExt_self]
    rfl
  have hcont : (([B] : List String).contains A) = false := by simp [hABne]
  unfold removeRoles scoreOf
  rw [hsort, hsplit, List.foldl_append, List.foldl_cons,
    lookupRole_filter_not_contains hcont,
    foldl_removeInner_preserves_ne ns₂ _ hnotin.2,
    removeInner_step_some hacc1A, hacc1B, if_pos his,
    lookupRole_setRole_self]
  unfold extendedItem
  simp
  omega
/-- Witness for C7 (amended) on the concrete two-role store: after the
extension and removal, `a` sits at score 2 = 1 + 1. -/
theorem C7_witness :
    (twoRoles.map Prod.fst).Nodup
    ∧ scoreOf (removeRoles
        [("a", { grants := [], ext := [("b", { condition := none })],
                 score := 3 }),
         ("b", { grants := [], ext := [], score := 1 })] ["b"]) "a" =
      some ((1 : Int) + 1) :=
  ⟨by decide,
   C7_score_roundtrip_off_by_one twoRoles _ "a" "b" none
     { grants := [], ext := [], score := 1 }
     { grants := [], ext := [], score := 1 }
     (by decide) rfl rfl rfl rfl⟩

/-! ## Claim C8 -/

/-- C8: `filter` applies patterns by specificity, not input order — every
permutation of `["*", "!b.*", "b.c"]` filters `{a:1, b:{c:2, d:3}}` to
`{a:1, b:{c:2}}` — and an empty pattern list or an empty-string pattern
empties any data object. -/
theorem C8_filter_specificity_and_empty :
    (∀ ps, ps ∈ ([["*", "!b.*", "b.c"], ["*", "b.c", "!b.*"],
        ["!b.*", "*", "b.c"], ["!b.*", "b.c", "*"],
        ["b.c", "*", "!b.*"], ["b.c", "!b.*", "*"]] : List (List String)) →
      filterAll filterExampleData ps =
        .obj [("a", .num 1), ("b", .obj [("c", .num 2)])])
    ∧ (∀ fields, filterAll (.obj fields) [] = .obj []
        ∧ filterAll (.obj fields) [""] = .obj []) := by
  constructor
  · intro ps hps
    simp only [List.mem_cons, List.not_mem_nil, or_false] at hps
    rcases hps with rfl | rfl | rfl | rfl | rfl | rfl <;> rfl
  · intro fields
    exact ⟨rfl, rfl⟩

/-- Witness for C8 at one of the six permutations and a concrete object. -/
theorem C8_witness :
    (["b.c", "*", "!b.*"] : List String) ∈
      ([["*", "!b.*", "b.c"], ["*", "b.c", "!b.*"],
        ["!b.*", "*", "b.c"], ["!b.*", "b.c", "*"],
        ["b.c", "*", "!b.*"], ["b.c", "!b.*", "*"]] : List (List String))
    ∧ filterAll filterExampleData ["b.c", "*", "!b.*"] =
        .obj [("a", .num 1), ("b", .obj [("c", .num 2)])]
    ∧ filterAll (.obj [("x", .num 9)]) [] = .obj [] :=
  ⟨by decide,
   C8_filter_specificity_and_empty.1 ["b.c", "*", "!b.*"] (by decide),
   (C8_filter_specificity_and_empty.2 [("x", .num 9)]).1⟩

/-- Witness for C2 at a concrete store, query and role permutation. -/
theorem C2_witness :
    (["admin", "x"] : List String).Perm ["x", "admin"]
    ∧ ("!password" ∈ getUnionAttrsOfRoles (fun _ => true) sampleGrants
          { sampleQueryTwoRoles with role := ["admin", "x"] } ↔
        "!password" ∈ getUnionAttrsOfRoles (fun _ => true) sampleGrants
          sampleQueryTwoRoles) :=
  ⟨List.Perm.swap "x" "admin" [],
   (C2_union_over_reachable_roles (fun _ => true) sampleGrants
      sampleQueryTwoRoles).2.2 ["admin", "x"]
      (List.Perm.swap "x" "admin" []) "!password"⟩
